import Mathlib

/-!
Shallow embedding of `src/WME-Shortcut-Demo.user.js`, the WME keyboard
shortcut demo userscript.  The chord codec `convertNumericShortcutToString`
and the per-shortcut lifecycle operations (manual save, override save,
auto-save tick, reset, startup key selection) are translated from the
script.  Browser `localStorage` is modelled as an association list of
parsed `PersistedShortcutConfig` records, and the host SDK's live
registration table as a list of `LiveShortcut` records.  JS strings are
handled through their character lists so that `split(',')`,
`parseInt(s, 10)` and `String(n)` have direct executable counterparts.
-/

set_option maxRecDepth 4000

/-- JS `str.split(',')` on the character list of the string: every comma
starts a new token, and the empty string splits to one empty token. -/
def jsSplitComma : List Char → List (List Char)
  | [] => [[]]
  | c :: rest =>
    if c = ',' then [] :: jsSplitComma rest
    else
      match jsSplitComma rest with
      | [] => [[c]]
      | h :: t => (c :: h) :: t

/-- Value of a list of decimal digit characters, most significant first. -/
def digitsToNat (l : List Char) : Nat :=
  l.foldl (fun a c => 10 * a + (c.toNat - 48)) 0

/-- The digit-reading core of JS `parseInt(s, 10)`: take the longest leading
run of decimal digits; no digits at all is `NaN`, modelled as `none`. -/
def jsParseIntDigits (l : List Char) : Option Nat :=
  let ds := l.takeWhile Char.isDigit
  if ds.isEmpty then none else some (digitsToNat ds)

/-- Sign handling of JS `parseInt(s, 10)` after leading whitespace removal:
an optional single `'-'` or `'+'` before the digits. -/
def jsParseIntSigned : List Char → Option Int
  | [] => none
  | c :: rest =>
    if c = '-' then (jsParseIntDigits rest).map (fun n => -(Int.ofNat n))
    else if c = '+' then (jsParseIntDigits rest).map Int.ofNat
    else (jsParseIntDigits (c :: rest)).map Int.ofNat

/-- JS `parseInt(s, 10)`: skip leading whitespace, read an optional sign,
then the longest run of decimal digits; `none` models `NaN`. -/
def jsParseInt (l : List Char) : Option Int :=
  jsParseIntSigned (l.dropWhile Char.isWhitespace)

/-- Decimal digit characters of a natural number, most significant first:
the digits JS `String(n)` prints for a nonnegative integer. -/
def natChars (n : Nat) : List Char :=
  if h : n < 10 then [Char.ofNat (48 + n)]
  else natChars (n / 10) ++ [Char.ofNat (48 + n % 10)]
decreasing_by exact Nat.div_lt_self (by omega) (by omega)

/-- JS `String(i)` for an integer: decimal form, `'-'`-prefixed when
negative. -/
def jsNumberToChars (i : Int) : List Char :=
  if i < 0 then '-' :: natChars (-i).toNat else natChars i.toNat

/-- Modifier letters of the converter (script lines 107-110): test bits
0, 1, 2 of the mask independently and append `'S'`, `'C'`, `'A'` in that
fixed order. -/
def modifierChars (mbits : Nat) : List Char :=
  (if mbits.testBit 0 then ['S'] else []) ++
    (if mbits.testBit 1 then ['C'] else []) ++
      (if mbits.testBit 2 then ['A'] else [])

/-- Key representation of the converter (script lines 113-123): key codes
48-57 give the literal digit character, 65-90 the lowercase letter
(`String.fromCharCode(code).toLowerCase()`), anything else the decimal
string of the code. -/
def keyRepChars (keyCode : Int) : List Char :=
  if 48 ≤ keyCode ∧ keyCode ≤ 57 then [Char.ofNat keyCode.toNat]
  else if 65 ≤ keyCode ∧ keyCode ≤ 90 then [Char.ofNat (keyCode.toNat + 32)]
  else jsNumberToChars keyCode

/-- Output assembly of the converter (script lines 106-130).  JS `&` works
on the low 32 two's-complement bits of the operand, so the mask is reduced
modulo `2 ^ 32` before its bits are tested.  When any modifier letter was
produced the parts are joined with `'+'`, otherwise the key representation
stands alone. -/
def buildChord (modifierBitmask keyCode : Int) : String :=
  let modifiers := modifierChars ((modifierBitmask % 4294967296).toNat)
  if modifiers.isEmpty then String.mk (keyRepChars keyCode)
  else String.mk (modifiers ++ '+' :: keyRepChars keyCode)

/-- `convertNumericShortcutToString` (script lines 95-131): `none` for a
missing or empty input (JS falsiness of `null` and `""`), split on commas,
demand exactly two tokens, `parseInt` each, `none` when either is `NaN`,
otherwise build the chord string. -/
def convertNumericShortcutToString : Option String → Option String
  | none => none
  | some s =>
    if s.data.isEmpty then none
    else
      match jsSplitComma s.data with
      | [p0, p1] =>
        match jsParseInt p0, jsParseInt p1 with
        | some modifierBitmask, some keyCode => some (buildChord modifierBitmask keyCode)
        | _, _ => none
      | _ => none

/-- A string the converter fully parses: exactly two comma-separated tokens,
each with a leading integer readable by `parseInt`. -/
def wellFormedNumeric (s : String) : Bool :=
  match jsSplitComma s.data with
  | [p0, p1] => (jsParseInt p0).isSome && (jsParseInt p1).isSome
  | _ => false

/-- A live registration as `wmeSDK.Shortcuts.getAllShortcuts()` reports it:
`shortcutKeys` is the host-internal numeric chord string, or `none` when
the shortcut is unassigned. -/
structure LiveShortcut where
  shortcutId : String
  name : String
  description : String
  shortcutKeys : Option String
deriving DecidableEq

/-- The `configToSave` record the script persists under one localStorage
key per shortcut. -/
structure PersistedShortcutConfig where
  shortcutId : String
  name : String
  description : String
  shortcutKeys : Option String
deriving DecidableEq

/-- Browser localStorage, modelled as an association list from storage keys
to already-parsed `PersistedShortcutConfig` records. -/
abbrev Storage := List (String × PersistedShortcutConfig)

/-- `localStorage.getItem` plus `JSON.parse`: the first record stored at the
key, or `none`. -/
def Storage.get : Storage → String → Option PersistedShortcutConfig
  | [], _ => none
  | (k', v) :: rest, k => if k' = k then some v else Storage.get rest k

/-- `localStorage.removeItem`: drop every record at the key. -/
def Storage.remove : Storage → String → Storage
  | [], _ => []
  | (k', v) :: rest, k =>
    if k' = k then Storage.remove rest k else (k', v) :: Storage.remove rest k

/-- `localStorage.setItem`: overwrite the record at the key. -/
def Storage.set (st : Storage) (k : String) (v : PersistedShortcutConfig) : Storage :=
  (k, v) :: Storage.remove st k

/-- `allShortcuts.find(s => s.shortcutId === shortcutId)`. -/
def findShortcut (live : List LiveShortcut) (shortcutId : String) : Option LiveShortcut :=
  live.find? (fun sc => sc.shortcutId == shortcutId)

/-- The `configToSave` object every save path builds from the live
registration's current id, name, description and chord. -/
def configOf (sc : LiveShortcut) : PersistedShortcutConfig :=
  ⟨sc.shortcutId, sc.name, sc.description, sc.shortcutKeys⟩

/-- JS truthiness of a nullable string: `null` and `""` are falsy, every
other string is truthy. -/
def jsTruthy : Option String → Bool
  | none => false
  | some s => !s.data.isEmpty

/-- `saveDemoShortcut1` (script lines 198-235; also the storage effect of
the manual saves of shortcuts 2 and 4): no-op when the live registration is
absent, otherwise overwrite the storage key with the live registration's
id, name, description and chord — whatever the chord currently is. -/
def saveDemoShortcut1 (shortcutId storageKey : String) (live : List LiveShortcut)
    (st : Storage) : Storage :=
  match findShortcut live shortcutId with
  | none => st
  | some sc => Storage.set st storageKey (configOf sc)

/-- `saveDemoShortcut3` (script lines 482-519), the override variant: it
additionally skips the write when the live chord is falsy
(`!shortcut || !shortcut.shortcutKeys`). -/
def saveDemoShortcut3 (shortcutId storageKey : String) (live : List LiveShortcut)
    (st : Storage) : Storage :=
  match findShortcut live shortcutId with
  | none => st
  | some sc =>
    if jsTruthy sc.shortcutKeys then Storage.set st storageKey (configOf sc) else st

/-- Mutable state of an auto-save instance: the storage plus the
`lastSavedKeys` variable tracking the last persisted chord. -/
structure AutoSaveState where
  storage : Storage
  lastSavedKeys : Option String
deriving DecidableEq

/-- `saveDemoShortcut2` / `saveDemoShortcut4` (manual save of the auto-save
patterns, script lines 359-396 and 637-674): the same storage write as
`saveDemoShortcut1`, plus updating `lastSavedKeys` to the live chord. -/
def saveDemoShortcut2 (shortcutId storageKey : String) (live : List LiveShortcut)
    (s : AutoSaveState) : AutoSaveState :=
  match findShortcut live shortcutId with
  | none => s
  | some sc => ⟨Storage.set s.storage storageKey (configOf sc), sc.shortcutKeys⟩

/-- One tick of the 2-second auto-save interval of `initializeShortcut2`
and `initializeShortcut4` (script lines 323-356 and 601-634): write and
update `lastSavedKeys` only when the live registration exists, its chord is
truthy, and the chord differs from `lastSavedKeys`. -/
def autoSaveTick (shortcutId storageKey : String) (live : List LiveShortcut)
    (s : AutoSaveState) : AutoSaveState :=
  match findShortcut live shortcutId with
  | none => s
  | some sc =>
    if jsTruthy sc.shortcutKeys then
      if sc.shortcutKeys ≠ s.lastSavedKeys then
        ⟨Storage.set s.storage storageKey (configOf sc), sc.shortcutKeys⟩
      else s
    else s

/-- The page state a reset can observe: the live registration table and the
storage. -/
structure World where
  live : List LiveShortcut
  storage : Storage
deriving DecidableEq

/-- `resetDemoShortcut1..4` (e.g. script lines 238-248): a single
`localStorage.removeItem` on the instance's key; the live registration
table is untouched. -/
def resetDemoShortcut (storageKey : String) (w : World) : World :=
  ⟨w.live, Storage.remove w.storage storageKey⟩

/-- Step 3 of every `initializeShortcutN`: the chord handed to
`createShortcut`.  `hardcodedDefault` is `none` for shortcuts 1 and 4,
`some "A+2"` for shortcut 2 and `some "A+9"` for shortcut 3.  The saved
chord is used only when truthy (`savedConfig?.shortcutKeys`), and the
converted value is normalised by `converted || null`. -/
def startupShortcutKeysToUse : Option PersistedShortcutConfig → Option String → Option String
  | none, hardcodedDefault => hardcodedDefault
  | some cfg, hardcodedDefault =>
    match cfg.shortcutKeys with
    | none => hardcodedDefault
    | some sk =>
      if sk.data.isEmpty then hardcodedDefault
      else
        match convertNumericShortcutToString (some sk) with
        | none => none
        | some c => if c.data.isEmpty then none else some c

/-- Steps 1-4 of the startup protocol at the chord level: load the persisted
record from storage and compute the chord the new registration gets. -/
def startupRegisteredKeys (storageKey : String) (st : Storage)
    (hardcodedDefault : Option String) : Option String :=
  startupShortcutKeysToUse (Storage.get st storageKey) hardcodedDefault

/-- Every record present in storage has a non-null chord. -/
def StorageInv (st : Storage) : Prop :=
  ∀ k cfg, Storage.get st k = some cfg → cfg.shortcutKeys ≠ none

/-- A string with an empty character list is the empty string. -/
theorem eq_empty_of_data_isEmpty (c : String) (h : c.data.isEmpty = true) : c = "" := by
  obtain ⟨l⟩ := c
  cases l with
  | nil => rfl
  | cons a t => simp [List.isEmpty] at h

/-- A nonempty string has a nonempty character list. -/
theorem data_isEmpty_false (c : String) (h : c ≠ "") : c.data.isEmpty = false := by
  obtain ⟨l⟩ := c
  cases l with
  | nil => exact absurd rfl h
  | cons a t => rfl

/-- Splitting a comma-free token yields just that token. -/
theorem jsSplitComma_no_comma (l : List Char) (h : ',' ∉ l) : jsSplitComma l = [l] := by
  induction l with
  | nil => rfl
  | cons c rest ih =>
    have hc : c ≠ ',' := fun hc => h (hc ▸ List.mem_cons_self c rest)
    simp only [jsSplitComma, if_neg hc, ih (fun hm => h (List.mem_cons_of_mem c hm))]

/-- Splitting `a ++ "," ++ b` with `a` comma-free peels off `a` as the first
token. -/
theorem jsSplitComma_append (a b : List Char) (h : ',' ∉ a) :
    jsSplitComma (a ++ ',' :: b) = a :: jsSplitComma b := by
  induction a with
  | nil => simp [jsSplitComma]
  | cons c a' ih =>
    have hc : c ≠ ',' := fun hc => h (hc ▸ List.mem_cons_self c a')
    have ih' := ih (fun hm => h (List.mem_cons_of_mem c hm))
    simp only [List.cons_append, jsSplitComma, if_neg hc]
    simp only [List.append_eq] at ih' ⊢
    rw [ih']

/-- All the character facts needed about a decimal digit character. -/
theorem digitChar_facts (d : Nat) (h : d < 10) :
    (Char.ofNat (48 + d)).toNat = 48 + d ∧ (Char.ofNat (48 + d)).isDigit = true ∧
      Char.ofNat (48 + d) ≠ ',' ∧ Char.ofNat (48 + d) ≠ '-' ∧ Char.ofNat (48 + d) ≠ '+' ∧
      (Char.ofNat (48 + d)).isWhitespace = false := by
  interval_cases d <;> decide

/-- Every character `natChars` produces is a decimal digit character. -/
theorem natChars_mem (n : Nat) : ∀ c ∈ natChars n, ∃ d, d < 10 ∧ c = Char.ofNat (48 + d) := by
  induction n using Nat.strong_induction_on with
  | _ n ih =>
    intro c hc
    unfold natChars at hc
    split at hc
    · next h =>
      simp only [List.mem_singleton] at hc
      exact ⟨n, h, hc⟩
    · next h =>
      rw [List.mem_append] at hc
      rcases hc with hc | hc
      · exact ih (n / 10) (Nat.div_lt_self (by omega) (by omega)) c hc
      · simp only [List.mem_singleton] at hc
        exact ⟨n % 10, by omega, hc⟩

/-- `natChars` always starts with a digit character. -/
theorem natChars_head (n : Nat) :
    ∃ d t, d < 10 ∧ natChars n = Char.ofNat (48 + d) :: t := by
  induction n using Nat.strong_induction_on with
  | _ n ih =>
    unfold natChars
    split
    · next h => exact ⟨n, [], h, rfl⟩
    · next h =>
      obtain ⟨d, t, hd, he⟩ := ih (n / 10) (Nat.div_lt_self (by omega) (by omega))
      exact ⟨d, t ++ [Char.ofNat (48 + n % 10)], hd, by rw [he]; rfl⟩

/-- Reading the digits of `n` back gives `n`. -/
theorem digitsToNat_natChars (n : Nat) : digitsToNat (natChars n) = n := by
  induction n using Nat.strong_induction_on with
  | _ n ih =>
    unfold natChars
    split
    · next h =>
      simp only [digitsToNat, List.foldl_cons, List.foldl_nil, (digitChar_facts n h).1]
      omega
    · next h =>
      have ihh := ih (n / 10) (Nat.div_lt_self (by omega) (by omega))
      simp only [digitsToNat] at ihh
      simp only [digitsToNat, List.foldl_append, List.foldl_cons, List.foldl_nil, ihh,
        (digitChar_facts (n % 10) (by omega)).1]
      omega

/-- `takeWhile` keeps a list all of whose elements satisfy the predicate. -/
theorem takeWhile_all {α : Type} (p : α → Bool) (l : List α) (h : ∀ c ∈ l, p c = true) :
    l.takeWhile p = l := by
  induction l with
  | nil => rfl
  | cons c rest ih =>
    rw [List.takeWhile_cons, h c (List.mem_cons_self c rest)]
    simp [ih (fun x hx => h x (List.mem_cons_of_mem c hx))]

theorem natChars_all_digit (n : Nat) : ∀ c ∈ natChars n, c.isDigit = true := by
  intro c hc
  obtain ⟨d, hd, rfl⟩ := natChars_mem n c hc
  exact (digitChar_facts d hd).2.1

theorem natChars_no_comma (n : Nat) : ',' ∉ natChars n := by
  intro hc
  obtain ⟨d, hd, he⟩ := natChars_mem n ',' hc
  exact (digitChar_facts d hd).2.2.1 he.symm

theorem natChars_ne_nil (n : Nat) : natChars n ≠ [] := by
  obtain ⟨d, t, _, he⟩ := natChars_head n
  rw [he]
  exact List.cons_ne_nil _ _

theorem jsNumberToChars_no_comma (i : Int) : ',' ∉ jsNumberToChars i := by
  unfold jsNumberToChars
  split
  · intro hc
    rcases List.mem_cons.mp hc with h | h
    · exact absurd h (by decide)
    · exact natChars_no_comma _ h
  · exact natChars_no_comma _

theorem jsNumberToChars_ne_nil (i : Int) : jsNumberToChars i ≠ [] := by
  unfold jsNumberToChars
  split
  · exact List.cons_ne_nil _ _
  · exact natChars_ne_nil _

/-- The digit reader is a left inverse of the digit printer. -/
theorem jsParseIntDigits_natChars (n : Nat) : jsParseIntDigits (natChars n) = some n := by
  have hne : (natChars n).isEmpty = false := by
    obtain ⟨d, t, _, he⟩ := natChars_head n
    rw [he]
    rfl
  simp only [jsParseIntDigits, takeWhile_all Char.isDigit (natChars n) (natChars_all_digit n),
    hne, Bool.false_eq_true, if_false, digitsToNat_natChars n]

/-- `parseInt` reads the decimal form of a natural number back. -/
theorem jsParseInt_natChars (n : Nat) : jsParseInt (natChars n) = some (n : Int) := by
  obtain ⟨d, t, hd, he⟩ := natChars_head n
  have hfacts := digitChar_facts d hd
  have hdrop : (natChars n).dropWhile Char.isWhitespace = natChars n := by
    rw [he, List.dropWhile_cons, hfacts.2.2.2.2.2]
    simp
  rw [jsParseInt, hdrop, he]
  simp only [jsParseIntSigned, if_neg hfacts.2.2.2.1, if_neg hfacts.2.2.2.2.1]
  rw [← he, jsParseIntDigits_natChars]
  rfl

/-- `parseInt` reads the decimal form of any integer back. -/
theorem jsParseInt_jsNumberToChars (i : Int) : jsParseInt (jsNumberToChars i) = some i := by
  unfold jsNumberToChars
  split
  · next hneg =>
    rw [jsParseInt, List.dropWhile_cons]
    simp [jsParseIntSigned, jsParseIntDigits_natChars]
    omega
  · next hpos =>
    rw [jsParseInt_natChars]
    congr 1
    omega

/-- Reading a key just removed yields nothing. -/
theorem Storage.get_remove_self (st : Storage) (k : String) :
    Storage.get (Storage.remove st k) k = none := by
  induction st with
  | nil => rfl
  | cons p rest ih =>
    obtain ⟨pk, pv⟩ := p
    by_cases h : pk = k
    · simp [Storage.remove, h, ih]
    · simp [Storage.remove, h, Storage.get, ih]

/-- Removing one key leaves every other key unchanged. -/
theorem Storage.get_remove_ne (st : Storage) (k k' : String) (h : k' ≠ k) :
    Storage.get (Storage.remove st k) k' = Storage.get st k' := by
  induction st with
  | nil => rfl
  | cons p rest ih =>
    obtain ⟨pk, pv⟩ := p
    by_cases h1 : pk = k
    · subst h1
      simp [Storage.remove, Storage.get, ih]
      exact (if_neg (fun hh : pk = k' => h hh.symm)).symm
    · simp [Storage.remove, h1, Storage.get, ih]

/-- Removing a key twice is the same as removing it once. -/
theorem Storage.remove_remove (st : Storage) (k : String) :
    Storage.remove (Storage.remove st k) k = Storage.remove st k := by
  induction st with
  | nil => rfl
  | cons p rest ih =>
    obtain ⟨pk, pv⟩ := p
    by_cases h : pk = k
    · simp [Storage.remove, h, ih]
    · simp [Storage.remove, h, ih]

/-- Reading a key just written yields the written record. -/
theorem Storage.get_set_self (st : Storage) (k : String) (v : PersistedShortcutConfig) :
    Storage.get (Storage.set st k v) k = some v := by
  simp [Storage.set, Storage.get]

/-- Writing one key leaves every other key unchanged. -/
theorem Storage.get_set_ne (st : Storage) (k k' : String) (v : PersistedShortcutConfig)
    (h : k' ≠ k) :
    Storage.get (Storage.set st k v) k' = Storage.get st k' := by
  simp only [Storage.set, Storage.get, if_neg (fun hh : k = k' => h hh.symm)]
  exact Storage.get_remove_ne st k k' h

/-- The key representation is never the empty character list. -/
theorem keyRepChars_ne_nil (k : Int) : keyRepChars k ≠ [] := by
  unfold keyRepChars
  split
  · exact List.cons_ne_nil _ _
  · split
    · exact List.cons_ne_nil _ _
    · exact jsNumberToChars_ne_nil k

/-- The converter never produces the empty chord string. -/
theorem buildChord_ne_empty (a b : Int) : buildChord a b ≠ "" := by
  simp only [buildChord]
  intro hc
  split at hc
  · exact keyRepChars_ne_nil b (congrArg String.data hc)
  · have h2 : modifierChars ((a % 4294967296).toNat) ++ '+' :: keyRepChars b = [] :=
      congrArg String.data hc
    simp at h2

/-- The converter never returns `some ""`. -/
theorem convert_ne_some_empty (x : Option String) :
    convertNumericShortcutToString x ≠ some "" := by
  intro hc
  unfold convertNumericShortcutToString at hc
  split at hc
  · exact Option.noConfusion hc
  · split at hc
    · exact Option.noConfusion hc
    · split at hc
      · split at hc
        · exact buildChord_ne_empty _ _ (Option.some.inj hc)
        · exact Option.noConfusion hc
      · exact Option.noConfusion hc

/-- Startup with no persisted record registers the hardcoded default. -/
theorem startupKeys_absent (d : Option String) : startupShortcutKeysToUse none d = d := rfl

/-- Startup with a null-keyed persisted record registers the hardcoded
default. -/
theorem startupKeys_cfg_null (cfg : PersistedShortcutConfig) (d : Option String)
    (h : cfg.shortcutKeys = none) : startupShortcutKeysToUse (some cfg) d = d := by
  simp only [startupShortcutKeysToUse]
  split
  · rfl
  · rename_i sk heq
    rw [h] at heq
    exact Option.noConfusion heq

/-- Startup with an empty-string-keyed persisted record registers the
hardcoded default: `""` is falsy in JS. -/
theorem startupKeys_cfg_empty (cfg : PersistedShortcutConfig) (d : Option String)
    (h : cfg.shortcutKeys = some "") : startupShortcutKeysToUse (some cfg) d = d := by
  simp only [startupShortcutKeysToUse]
  split
  · rfl
  · rename_i sk heq
    rw [h] at heq
    obtain rfl := (Option.some.inj heq).symm
    simp

/-- Startup with a non-null, non-empty persisted chord registers exactly
what the converter returns for it (including `none` on conversion
failure). -/
theorem startupKeys_some (cfg : PersistedShortcutConfig) (c : String) (d : Option String)
    (h : cfg.shortcutKeys = some c) (hc : c ≠ "") :
    startupShortcutKeysToUse (some cfg) d = convertNumericShortcutToString (some c) := by
  simp only [startupShortcutKeysToUse]
  split
  · rename_i heq
    rw [h] at heq
    exact Option.noConfusion heq
  · rename_i sk heq
    rw [h] at heq
    obtain rfl := Option.some.inj heq
    rw [data_isEmpty_false c hc]
    simp only [Bool.false_eq_true, if_false]
    split
    · rename_i heq2
      exact heq2.symm
    · rename_i r heq2
      have hr : r ≠ "" := by
        intro hre
        subst hre
        exact convert_ne_some_empty _ heq2
      rw [data_isEmpty_false r hr]
      simp only [Bool.false_eq_true, if_false]
      exact heq2.symm

/-- C1: for every modifier bitmask `m` in `0..7` and every integer key code
`k`, decoding the two-token string `"m,k"` yields a chord built from a
modifier stub that tests bits 0, 1, 2 of the mask independently (letters
`S`, `C`, `A` in that fixed order), then — only when that stub is
nonempty — a `'+'` separator, then the key representation: the literal
digit character for codes 48-57, the lowercase letter for codes 65-90, and
the decimal string of `k` otherwise. -/
theorem c1_decode_well_formed (m : Nat) (k : Int) (hm : m < 8) :
    convertNumericShortcutToString (some (String.mk (natChars m ++ ',' :: jsNumberToChars k))) =
      some (let modifiers : List Char :=
              (if m.testBit 0 then ['S'] else []) ++
                (if m.testBit 1 then ['C'] else []) ++
                  (if m.testBit 2 then ['A'] else [])
            let keyRepresentation : List Char :=
              if 48 ≤ k ∧ k ≤ 57 then [Char.ofNat k.toNat]
              else if 65 ≤ k ∧ k ≤ 90 then [Char.ofNat (k.toNat + 32)]
              else jsNumberToChars k
            if modifiers.isEmpty then String.mk keyRepresentation
            else String.mk (modifiers ++ '+' :: keyRepresentation)) := by
  have hsplit : jsSplitComma (natChars m ++ ',' :: jsNumberToChars k)
      = [natChars m, jsNumberToChars k] := by
    rw [jsSplitComma_append _ _ (natChars_no_comma m),
      jsSplitComma_no_comma _ (jsNumberToChars_no_comma k)]
  have hdata : (String.mk (natChars m ++ ',' :: jsNumberToChars k)).data
      = natChars m ++ ',' :: jsNumberToChars k := rfl
  have hne : (natChars m ++ ',' :: jsNumberToChars k).isEmpty = false := by
    obtain ⟨d, t, _, he⟩ := natChars_head m
    rw [he]
    rfl
  simp only [convertNumericShortcutToString, hdata, hne, Bool.false_eq_true, if_false, hsplit,
    jsParseInt_natChars, jsParseInt_jsNumberToChars]
  have hm32 : (((m : Int)) % 4294967296).toNat = m := by omega
  simp only [buildChord, modifierChars, keyRepChars, hm32]

/-- Witness for C1 at the spec's example `m = 5`, `k = 78`:
`decode("5,78") = "SA+n"`. -/
theorem c1_decode_well_formed_witness :
    convertNumericShortcutToString (some (String.mk (natChars 5 ++ ',' :: jsNumberToChars 78)))
      = some "SA+n" :=
  (c1_decode_well_formed 5 78 (by decide)).trans (by decide)

/-- C2: the decoder is total with `null` as its only failure signal —
every input that is not a two-token integer-parsable string maps to `none`,
and in particular `decode(null)`, `decode("")`, `decode("1,2,3")` and
`decode("a,b")` are all `none`. -/
theorem c2_decode_total_sentinel :
    convertNumericShortcutToString none = none ∧
      (∀ s : String, wellFormedNumeric s = false →
        convertNumericShortcutToString (some s) = none) ∧
      convertNumericShortcutToString (some "") = none ∧
      convertNumericShortcutToString (some "1,2,3") = none ∧
      convertNumericShortcutToString (some "a,b") = none := by
  refine ⟨rfl, ?_, by decide, by decide, by decide⟩
  intro s hwf
  by_cases hse : s.data.isEmpty = true
  · simp [convertNumericShortcutToString, hse]
  · rcases hsp : jsSplitComma s.data with _ | ⟨p0, _ | ⟨p1, _ | ⟨p2, r⟩⟩⟩
    · simp [convertNumericShortcutToString, hse, hsp]
    · simp [convertNumericShortcutToString, hse, hsp]
    · have h2 : wellFormedNumeric s
          = ((jsParseInt p0).isSome && (jsParseInt p1).isSome) := by
        unfold wellFormedNumeric
        rw [hsp]
      rw [h2] at hwf
      simp only [convertNumericShortcutToString, if_neg hse, hsp]
      rcases hpa : jsParseInt p0 with _ | a <;> rcases hpb : jsParseInt p1 with _ | b <;>
        simp [hpa, hpb] at hwf ⊢
    · simp [convertNumericShortcutToString, hse, hsp]

/-- Witness for C2 on the malformed input `"x,y"`. -/
theorem c2_decode_total_sentinel_witness :
    wellFormedNumeric "x,y" = false ∧ convertNumericShortcutToString (some "x,y") = none :=
  ⟨by decide, c2_decode_total_sentinel.2.1 "x,y" (by decide)⟩

/-- C3: persistence round trip for the manual-save pattern — saving a live
registration with a non-null chord and then running the startup key
selection on the just-saved record registers exactly the decode of the
chord that was live at save time. -/
theorem c3_save_reload_roundtrip (shortcutId storageKey : String) (live : List LiveShortcut)
    (st : Storage) (sc : LiveShortcut) (c : String)
    (hfind : findShortcut live shortcutId = some sc)
    (hkeys : sc.shortcutKeys = some c) :
    startupRegisteredKeys storageKey (saveDemoShortcut1 shortcutId storageKey live st) none =
      convertNumericShortcutToString sc.shortcutKeys := by
  have hs1 : saveDemoShortcut1 shortcutId storageKey live st
      = Storage.set st storageKey (configOf sc) := by
    unfold saveDemoShortcut1
    rw [hfind]
  have hck : (configOf sc).shortcutKeys = some c := hkeys
  rw [startupRegisteredKeys, hs1, Storage.get_set_self, hkeys]
  by_cases hcs : c = ""
  · subst hcs
    rw [startupKeys_cfg_empty _ _ hck]
    rfl
  · exact startupKeys_some (configOf sc) c none hck hcs

/-- Witness for C3 with the live chord `"5,78"`. -/
theorem c3_save_reload_roundtrip_witness :
    startupRegisteredKeys "K"
        (saveDemoShortcut1 "id" "K" [⟨"id", "n", "d", some "5,78"⟩] []) none =
      convertNumericShortcutToString (some "5,78") :=
  c3_save_reload_roundtrip "id" "K" [⟨"id", "n", "d", some "5,78"⟩] []
    ⟨"id", "n", "d", some "5,78"⟩ "5,78" (by decide) rfl

/-- C4 counterexample: a persisted record whose `shortcutKeys` is the empty
string is non-null, and decoding it fails, yet the startup registers the
hardcoded default rather than no chord — the code's truthiness test
(`savedConfig?.shortcutKeys`) treats `""` like a missing record instead of
running the decoder on it. -/
theorem c4_counterexample :
    startupRegisteredKeys "K" [("K", ⟨"id", "n", "d", some ""⟩)] (some "A+2") = some "A+2" ∧
      convertNumericShortcutToString (some "") = none ∧
      (⟨"id", "n", "d", some ""⟩ : PersistedShortcutConfig).shortcutKeys ≠ none := by
  exact ⟨by decide, rfl, by decide⟩

/-- C4 (amended): the chord registered at startup is the decode of the
persisted numeric chord when a record with a non-null, non-empty
`shortcutKeys` exists (decode failure then yields no chord, not the
default); the hardcoded default when no persisted chord exists — no record,
or a record whose keys are null or the empty string — and hence no chord
when additionally no default is configured; and `reset()` followed by a
reload always yields the default (or nothing), never the previously saved
chord. -/
theorem c4_startup_selection_amended (storageKey : String) (st : Storage) (d : Option String) :
    (∀ cfg c, Storage.get st storageKey = some cfg → cfg.shortcutKeys = some c → c ≠ "" →
        startupRegisteredKeys storageKey st d = convertNumericShortcutToString (some c)) ∧
      (∀ cfg, Storage.get st storageKey = some cfg →
        (cfg.shortcutKeys = none ∨ cfg.shortcutKeys = some "") →
        startupRegisteredKeys storageKey st d = d) ∧
      (Storage.get st storageKey = none → startupRegisteredKeys storageKey st d = d) ∧
      (∀ live : List LiveShortcut,
        startupRegisteredKeys storageKey (resetDemoShortcut storageKey ⟨live, st⟩).storage d
          = d) := by
  refine ⟨?_, ?_, ?_, ?_⟩
  · intro cfg c hget hcfg hc
    rw [startupRegisteredKeys, hget]
    exact startupKeys_some cfg c d hcfg hc
  · intro cfg hget hdis
    rw [startupRegisteredKeys, hget]
    rcases hdis with h | h
    · exact startupKeys_cfg_null cfg d h
    · exact startupKeys_cfg_empty cfg d h
  · intro hget
    rw [startupRegisteredKeys, hget]
    rfl
  · intro live
    rw [startupRegisteredKeys,
      show (resetDemoShortcut storageKey ⟨live, st⟩).storage
        = Storage.remove st storageKey from rfl,
      Storage.get_remove_self]
    rfl

/-- Witness for the amended C4: a persisted `"2,81"` record overrides the
default and registers its decode. -/
theorem c4_startup_selection_amended_witness :
    startupRegisteredKeys "K" [("K", ⟨"id", "n", "d", some "2,81"⟩)] (some "A+2")
      = convertNumericShortcutToString (some "2,81") :=
  (c4_startup_selection_amended "K" [("K", ⟨"id", "n", "d", some "2,81"⟩)] (some "A+2")).1
    ⟨"id", "n", "d", some "2,81"⟩ "2,81" (by decide) rfl (by decide)

/-- C5 counterexample: mask value 2 selects the Ctrl letter `C` in the
script (its scheme is 1 = Shift, 2 = Ctrl, 4 = Alt), so `decode("2,81")`
is `"C+q"` and not the Shift-letter chord `"S+q"` the claim describes. -/
theorem c5_counterexample :
    convertNumericShortcutToString (some "2,81") = some "C+q" ∧
      convertNumericShortcutToString (some "2,81") ≠ some "S+q" :=
  ⟨by decide, by decide⟩

/-- C5 (amended): `decode("2,81")` is the Ctrl modifier letter, the `'+'`
separator, and the lowercase letter q (key code 81 lies in the
uppercase-letter range). -/
theorem c5_decode_ctrl_q_amended :
    convertNumericShortcutToString (some "2,81") = some "C+q" := by decide

/-- C6 counterexample: the pattern-A manual save with a live registration
whose chord is unassigned writes a record whose `shortcutKeys` is null —
`saveDemoShortcut1` only checks that the registration exists, not that its
keys are set. -/
theorem c6_counterexample :
    Storage.get (saveDemoShortcut1 "id" "K" [⟨"id", "n", "d", none⟩] []) "K"
      = some ⟨"id", "n", "d", none⟩ := by decide

/-- C6 (amended): the auto-save tick and the pattern-C override save never
write a null-keyed record — they preserve the invariant that every record
in storage has non-null `shortcutKeys`; the plain manual save, by contrast,
writes the live chord verbatim, null included. -/
theorem c6_storage_invariant_amended (shortcutId storageKey : String) (live : List LiveShortcut)
    (st : Storage) (s : AutoSaveState) :
    (StorageInv st → StorageInv (saveDemoShortcut3 shortcutId storageKey live st)) ∧
      (StorageInv s.storage → StorageInv (autoSaveTick shortcutId storageKey live s).storage) := by
  constructor
  · intro hinv k cfg hget
    unfold saveDemoShortcut3 at hget
    split at hget
    · exact hinv k cfg hget
    · rename_i sc hf
      split at hget
      · rename_i htr
        by_cases hkk : k = storageKey
        · subst hkk
          rw [Storage.get_set_self] at hget
          obtain rfl := Option.some.inj hget
          simp only [configOf]
          rcases hk : sc.shortcutKeys with _ | c
          · rw [hk] at htr
            exact absurd htr (by decide)
          · simp
        · rw [Storage.get_set_ne _ _ _ _ hkk] at hget
          exact hinv k cfg hget
      · exact hinv k cfg hget
  · intro hinv k cfg hget
    unfold autoSaveTick at hget
    split at hget
    · exact hinv k cfg hget
    · rename_i sc hf
      split at hget
      · rename_i htr
        split at hget
        · rename_i hne
          by_cases hkk : k = storageKey
          · subst hkk
            rw [Storage.get_set_self] at hget
            obtain rfl := Option.some.inj hget
            simp only [configOf]
            rcases hk : sc.shortcutKeys with _ | c
            · rw [hk] at htr
              exact absurd htr (by decide)
            · simp
          · rw [Storage.get_set_ne _ _ _ _ hkk] at hget
            exact hinv k cfg hget
        · exact hinv k cfg hget
      · exact hinv k cfg hget

/-- Witness for the amended C6: the override save of a `"1,2"` chord never
leaves a null-keyed record at the written key. -/
theorem c6_storage_invariant_amended_witness :
    Storage.get (saveDemoShortcut3 "id" "K" [⟨"id", "n", "d", some "1,2"⟩] []) "K"
      ≠ some ⟨"id", "n", "d", none⟩ := by
  intro hcontra
  exact (c6_storage_invariant_amended "id" "K" [⟨"id", "n", "d", some "1,2"⟩] [] ⟨[], none⟩).1
    (fun k cfg h => absurd h (by simp [Storage.get])) "K" ⟨"id", "n", "d", none⟩ hcontra rfl

/-- C7 counterexample: a live chord that is the empty string is non-null
and differs from `lastSavedKeys`, yet the tick is a no-op — the truthiness
guard `if (shortcut && shortcut.shortcutKeys)` also rejects `""`, so the
claimed write does not happen. -/
theorem c7_counterexample :
    autoSaveTick "id" "K" [⟨"id", "n", "d", some ""⟩] ⟨[], none⟩ = ⟨[], none⟩ ∧
      (some "" : Option String) ≠ none :=
  ⟨by decide, by decide⟩

/-- C7 (amended): on a tick, if the live chord is non-null, non-empty and
differs from `lastPersistedChord`, the tick performs exactly the write
`save()` would perform and sets `lastPersistedChord` to the live chord; in
every other case (registration absent, chord null or empty, or chord equal
to `lastPersistedChord`) the tick changes nothing; consequently a second
consecutive tick with no further change is always a no-op. -/
theorem c7_autosave_tick_amended (shortcutId storageKey : String) (live : List LiveShortcut)
    (s : AutoSaveState) :
    (∀ sc c, findShortcut live shortcutId = some sc → sc.shortcutKeys = some c → c ≠ "" →
        some c ≠ s.lastSavedKeys →
        autoSaveTick shortcutId storageKey live s
            = saveDemoShortcut2 shortcutId storageKey live s ∧
          (autoSaveTick shortcutId storageKey live s).storage =
            Storage.set s.storage storageKey (configOf sc) ∧
          (autoSaveTick shortcutId storageKey live s).lastSavedKeys = some c) ∧
      (findShortcut live shortcutId = none → autoSaveTick shortcutId storageKey live s = s) ∧
      (∀ sc, findShortcut live shortcutId = some sc →
        (sc.shortcutKeys = none ∨ sc.shortcutKeys = some "" ∨
          sc.shortcutKeys = s.lastSavedKeys) →
        autoSaveTick shortcutId storageKey live s = s) ∧
      autoSaveTick shortcutId storageKey live (autoSaveTick shortcutId storageKey live s) =
        autoSaveTick shortcutId storageKey live s := by
  refine ⟨?_, fun hf => by simp [autoSaveTick, hf], ?_, ?_⟩
  · intro sc c hf hk hc hne
    have htr : jsTruthy (some c) = true := by
      simp [jsTruthy, data_isEmpty_false c hc]
    have htick : autoSaveTick shortcutId storageKey live s
        = ⟨Storage.set s.storage storageKey (configOf sc), some c⟩ := by
      simp [autoSaveTick, hf, hk, htr, hne]
    have hsave : saveDemoShortcut2 shortcutId storageKey live s
        = ⟨Storage.set s.storage storageKey (configOf sc), some c⟩ := by
      simp [saveDemoShortcut2, hf, hk]
    exact ⟨htick.trans hsave.symm, by rw [htick], by rw [htick]⟩
  · intro sc hf hdis
    rcases hdis with h | h | h
    · simp [autoSaveTick, hf, h, jsTruthy]
    · have ht : jsTruthy (some "") = false := rfl
      simp [autoSaveTick, hf, h, ht]
    · simp [autoSaveTick, hf, h]
  · rcases hf : findShortcut live shortcutId with _ | sc
    · simp [autoSaveTick, hf]
    · rcases hk : sc.shortcutKeys with _ | c
      · simp [autoSaveTick, hf, hk, jsTruthy]
      · by_cases hce : c = ""
        · subst hce
          have ht : jsTruthy (some "") = false := rfl
          simp [autoSaveTick, hf, hk, ht]
        · have htr : jsTruthy (some c) = true := by
            simp [jsTruthy, data_isEmpty_false c hce]
          by_cases heq : some c = s.lastSavedKeys
          · have hstop : autoSaveTick shortcutId storageKey live s = s := by
              simp [autoSaveTick, hf, hk, htr, heq]
            rw [hstop]
            exact hstop
          · have h1 : autoSaveTick shortcutId storageKey live s
                = ⟨Storage.set s.storage storageKey (configOf sc), some c⟩ := by
              simp [autoSaveTick, hf, htr, hk, heq]
            rw [h1]
            simp [autoSaveTick, hf, htr, hk]

/-- Witness for the amended C7: a fresh `"1,2"` chord is written by the
tick exactly as the manual save would write it. -/
theorem c7_autosave_tick_amended_witness :
    autoSaveTick "id" "K" [⟨"id", "n", "d", some "1,2"⟩] ⟨[], none⟩
      = saveDemoShortcut2 "id" "K" [⟨"id", "n", "d", some "1,2"⟩] ⟨[], none⟩ :=
  ((c7_autosave_tick_amended "id" "K" [⟨"id", "n", "d", some "1,2"⟩] ⟨[], none⟩).1
    ⟨"id", "n", "d", some "1,2"⟩ "1,2" (by decide) rfl (by decide) (by decide)).1

/-- C8 counterexample: a live registration with the empty-string chord is
present and its chord is non-null, yet the override save leaves storage
unchanged — the guard `if (!shortcut || !shortcut.shortcutKeys)` tests
truthiness, so it skips `""` as well as `null`, contradicting the claim
that a null chord is the only pattern-C exception to "otherwise the
storage key is overwritten". -/
theorem c8_counterexample :
    saveDemoShortcut3 "id" "K" [⟨"id", "n", "d", some ""⟩] [] = [] ∧
      Storage.get (saveDemoShortcut3 "id" "K" [⟨"id", "n", "d", some ""⟩] []) "K" = none ∧
      (some "" : Option String) ≠ none :=
  ⟨by decide, by decide, by decide⟩

/-- C8 (amended): the manual save is a storage no-op when no live
registration with the instance's id exists; otherwise the plain save
(patterns A, B, D) overwrites the storage key with a record built from the
live registration's id, name, description and chord; the override variant
(pattern C) additionally treats a falsy live chord — null or the empty
string — as nothing-to-save, and overwrites the key for every truthy
(non-null, non-empty) live chord. -/
theorem c8_save_semantics_amended (shortcutId storageKey : String) (live : List LiveShortcut)
    (st : Storage) :
    (findShortcut live shortcutId = none →
        saveDemoShortcut1 shortcutId storageKey live st = st ∧
          saveDemoShortcut3 shortcutId storageKey live st = st) ∧
      (∀ sc, findShortcut live shortcutId = some sc →
        saveDemoShortcut1 shortcutId storageKey live st
          = Storage.set st storageKey (configOf sc)) ∧
      (∀ sc, findShortcut live shortcutId = some sc →
        (sc.shortcutKeys = none ∨ sc.shortcutKeys = some "") →
        saveDemoShortcut3 shortcutId storageKey live st = st) ∧
      (∀ sc c, findShortcut live shortcutId = some sc → sc.shortcutKeys = some c → c ≠ "" →
        saveDemoShortcut3 shortcutId storageKey live st
          = Storage.set st storageKey (configOf sc)) := by
  refine ⟨fun hf => ⟨by simp [saveDemoShortcut1, hf], by simp [saveDemoShortcut3, hf]⟩,
    fun sc hf => by simp [saveDemoShortcut1, hf], fun sc hf hdis => ?_,
    fun sc c hf hk hc => ?_⟩
  · rcases hdis with hk | hk
    · simp [saveDemoShortcut3, hf, hk, jsTruthy]
    · have ht : jsTruthy (some "") = false := rfl
      simp [saveDemoShortcut3, hf, hk, ht]
  · have htr : jsTruthy (some c) = true := by
      simp [jsTruthy, data_isEmpty_false c hc]
    simp [saveDemoShortcut3, hf, hk, htr]

/-- Witness for the amended C8: with no keys assigned the pattern-A save
still writes the (null-keyed) live record. -/
theorem c8_save_semantics_amended_witness :
    saveDemoShortcut1 "id" "K" [⟨"id", "n", "d", none⟩] []
      = Storage.set [] "K" (configOf ⟨"id", "n", "d", none⟩) :=
  (c8_save_semantics_amended "id" "K" [⟨"id", "n", "d", none⟩] []).2.1 ⟨"id", "n", "d", none⟩
    (by decide)

/-- C9: reset deletes the value at the instance's storage key and changes
nothing else — every other key and the live registration table are
unchanged — and it is idempotent, so resetting an already-absent key is a
harmless no-op. -/
theorem c9_reset_frame (storageKey : String) (w : World) :
    Storage.get (resetDemoShortcut storageKey w).storage storageKey = none ∧
      (∀ k', k' ≠ storageKey →
        Storage.get (resetDemoShortcut storageKey w).storage k' = Storage.get w.storage k') ∧
      (resetDemoShortcut storageKey w).live = w.live ∧
      resetDemoShortcut storageKey (resetDemoShortcut storageKey w) =
        resetDemoShortcut storageKey w := by
  refine ⟨Storage.get_remove_self _ _, fun k' h => Storage.get_remove_ne _ _ _ h, rfl, ?_⟩
  show (⟨w.live, Storage.remove (Storage.remove w.storage storageKey) storageKey⟩ : World) = _
  rw [Storage.remove_remove]
  rfl

/-- Witness for C9: resetting key `"K"` leaves the record under `"L"` in
place. -/
theorem c9_reset_frame_witness :
    Storage.get (resetDemoShortcut "K" ⟨[], [("L", ⟨"id", "n", "d", none⟩)]⟩).storage "L"
      = Storage.get [("L", ⟨"id", "n", "d", none⟩)] "L" :=
  (c9_reset_frame "K" ⟨[], [("L", ⟨"id", "n", "d", none⟩)]⟩).2.1 "L" (by decide)

/-- C10: `parseInt` keeps only the leading integer of each token, so the
token `"4x"` is accepted and `decode("4x,56")` returns the same non-null
chord `"A+8"` as `decode("4,56")`. -/
theorem c10_lenient_parsing :
    convertNumericShortcutToString (some "4x,56") = some "A+8" ∧
      convertNumericShortcutToString (some "4,56") = some "A+8" :=
  ⟨by decide, by decide⟩
